import Mathlib

set_option linter.unusedVariables false

/-! # Model of the auxtools debug server core

A shallow embedding of `src/debug_server/src/server.rs`: the protocol
types, the offset/line resolver, the shared request dispatch table
(`Server::handle_request`), the non-blocking poll path (`Server::process`),
the breakpoint-pause loop (`Server::handle_breakpoint`) and the network
thread's framing loop (`ServerThread::run`).

Machine integers are modelled as `Nat` with explicit `% 2^w` reductions
where the source performs an `as` cast or a wrapping `u32` addition.
External collaborators (the `dm` crate's introspection API, the
instruction-hook API, the TCP transport and the JSON codec) are modelled
as an explicit environment record `DmEnv` of pure oracles, per the spec's
section 6. -/

/-- Modelled from the spec: a disassembled VM instruction as produced by the
external `dm` crate's disassembler. `DbgLine` is the line-annotation marker
carrying a source line; every other instruction is opaque (`Other`, with a
payload so that distinct instructions stay distinguishable). -/
inductive Instruction where
  | DbgLine (line : Nat)
  | Other (code : Nat)
deriving DecidableEq, Repr

/-- Identity of a proc in the target VM: a path plus an override index
(`ProcRef` in `server_types.rs`, shaped by spec section 3). -/
structure ProcRef where
  path : String
  override_id : Nat
deriving DecidableEq, Repr

/-- A `ProcRef` plus a bytecode offset within that proc. -/
structure InstructionRef where
  proc : ProcRef
  offset : Nat
deriving DecidableEq, Repr

/-- Modelled from the spec: the stepping mode requested when resuming
(continue, step-over, step-into, step-out). -/
inductive ContinueKind where
  | Continue
  | StepOver
  | StepInto
  | StepOut
deriving DecidableEq, Repr

/-- Modelled from the spec: why a pause occurred (explicit breakpoint vs
externally requested pause). -/
inductive BreakpointReason where
  | Breakpoint
  | Pause
deriving DecidableEq, Repr

/-- Modelled from the spec: a discriminated reference to a named scope —
`Arguments(frame)`, `Locals(frame)`, or `Internal(tag, data)`, an opaque
capability handle to a VM value. -/
inductive VariablesRef where
  | Arguments (frame : Nat)
  | Locals (frame : Nat)
  | Internal (tag : Nat) (data : Nat)
deriving DecidableEq, Repr

/-- Modelled from the spec: the request union of the wire protocol
(spec section 6). -/
inductive Request where
  | BreakpointSet (instruction : InstructionRef)
  | BreakpointUnset (instruction : InstructionRef)
  | LineNumber (proc : ProcRef) (offset : Nat)
  | Offset (proc : ProcRef) (line : Nat)
  | StackFrames (thread_id : Nat) (start_frame : Option Nat) (count : Option Nat)
  | Scopes (frame_id : Nat)
  | Variables (vars : VariablesRef)
  | Continue (kind : ContinueKind)
  | Pause
deriving DecidableEq, Repr

/-- Modelled from the spec: a variable rendering — name, placeholder kind, a
string rendering of the value, and (always absent) nested variables. -/
inductive Variable where
  | mk (name : String) (kind : String) (value : String) (nested_variables : Option (List Variable))

/-- Result payload of a `BreakpointSet` response. -/
inductive BreakpointSetResult where
  | Success (line : Option Nat)
  | Failed
deriving DecidableEq, Repr

/-- A stack frame as reported over the wire: the instruction reference plus
the resolved source line. -/
structure StackFrame where
  instruction : InstructionRef
  line : Option Nat
deriving DecidableEq, Repr

/-- Modelled from the spec: the response union of the wire protocol
(spec section 6). -/
inductive Response where
  | BreakpointSet (result : BreakpointSetResult)
  | BreakpointUnset (success : Bool)
  | LineNumber (line : Option Nat)
  | Offset (offset : Option Nat)
  | StackFrames (frames : List StackFrame) (total_count : Nat)
  | Scopes (arguments : Option VariablesRef) (locals : Option VariablesRef)
      (globals : Option VariablesRef)
  | Variables (vars : List Variable)
  | BreakpointHit (reason : BreakpointReason)

/-- Modelled from the spec: one frame of the VM's captured call stack —
proc identity, current offset, argument bindings and local bindings
(only the binding names matter to this core: the handlers observe
emptiness and the proc path/offset). -/
structure DmFrame where
  proc_path : String
  offset : Nat
  args : List String
  locals : List String
deriving DecidableEq, Repr

/-- Modelled from the spec: the snapshot of the VM's active call stack
captured once per pause (`CallStacks::new`); `active` is the ordered frame
sequence. -/
structure CallStacks where
  active : List DmFrame
deriving DecidableEq, Repr

/-- Environment of external collaborators (spec section 6): the `dm` crate's
proc lookup fused with its disassembler (`Proc::find_override` followed by
`proc.disassemble()`, whose mid-function decode errors are ignored by the
source so only the decoded prefix is visible), the instruction-hook API,
the captured call stack, the globals handle, the reflective variable
enumeration (`Server::value_to_variables`, whose body is entirely calls
into the dm reflection API), and the transport write oracle. -/
structure DmEnv where
  find_override : String → Nat → Option (List (Nat × Instruction))
  hook_ok : String → Nat → Nat → Bool
  unhook_ok : String → Nat → Nat → Bool
  capture_stacks : CallStacks
  globals_tag : Nat
  globals_data : Nat
  value_to_variables : Nat → Nat → Except String (List Variable)
  write_ok : Response → Bool

/-- The `Server` struct's dispatcher-owned state: the optional pause
snapshot and the optional connected stream (the channel receivers and the
thread handle are modelled as explicit arguments of the operations). -/
structure Server where
  call_stacks : Option CallStacks
  stream : Option Unit
deriving DecidableEq, Repr

/-- `Server::listen`: the dispatcher starts with no snapshot and no
session. -/
def Server.listen : Server :=
  { call_stacks := none, stream := none }

/-- Reduction of a `usize`/wider value through an `as u32` cast. -/
def u32_mod (n : Nat) : Nat := n % 4294967296

/-- Wrapping 32-bit addition, the release-mode semantics of the source's
`start_frame + count` on `u32`. -/
def u32_add (a b : Nat) : Nat := (a + b) % 4294967296

/-- Reduction through an `as u16` cast. -/
def u16_mod (n : Nat) : Nat := n % 65536

/-- Reduction through an `as u8` cast. -/
def u8_mod (n : Nat) : Nat := n % 256

/-- The scan loop of `Server::get_line_number`: walk the disassembly in
order, tracking the most recently seen `DbgLine`; on reaching an entry
whose offset equals the query, return the tracked line (the `DbgLine`
update happens before the offset comparison); if the exact offset is never
reached, return `none`. -/
def get_line_number_scan (cur : Option Nat) (dism : List (Nat × Instruction))
    (offset : Nat) : Option Nat :=
  match dism with
  | [] => none
  | (io, inst) :: rest =>
    let cur' := match inst with
      | .DbgLine l => some l
      | _ => cur
    if io = offset then cur' else get_line_number_scan cur' rest offset

/-- `Server::get_line_number`: resolve the proc, disassemble it, and run the
scan loop; `none` when the proc cannot be resolved. -/
def Server.get_line_number (env : DmEnv) (proc : ProcRef) (offset : Nat) : Option Nat :=
  match env.find_override proc.path proc.override_id with
  | some dism => get_line_number_scan none dism offset
  | none => none

/-- The scan loop of the `Request::Offset` handler: find the first
`DbgLine` whose line equals the query and return the offset of the
instruction immediately following it (`at_offset` is the source's flag:
checked at the top of each iteration before the `DbgLine` test). -/
def offset_for_line_scan (at_offset : Bool) (dism : List (Nat × Instruction))
    (line : Nat) : Option Nat :=
  match dism with
  | [] => none
  | (io, inst) :: rest =>
    if at_offset then some io
    else
      match inst with
      | .DbgLine cur =>
        if cur = line then offset_for_line_scan true rest line
        else offset_for_line_scan false rest line
      | _ => offset_for_line_scan false rest line

/-- The frame record pushed by the `StackFrames` handler for one stack
entry: proc path with override 0, the `as u32`-cast offset, and the
re-resolved source line. -/
def frame_view (env : DmEnv) (fr : DmFrame) : StackFrame :=
  { instruction :=
      { proc := { path := fr.proc_path, override_id := 0 }
        offset := u32_mod fr.offset }
    line := Server.get_line_number env { path := fr.proc_path, override_id := 0 }
      (u32_mod fr.offset) }

/-- The `for i in start_frame..end_frame` loop of the `StackFrames`
handler, breaking as soon as `i` reaches the stack length. `fuel` is the
number of remaining range elements, `e - i` for the current index `i` (a
Rust range `i..e` yields exactly `e - i` values, truncated at zero). -/
def stack_frames_loop (env : DmEnv) (stack : List DmFrame) (fuel i : Nat) : List StackFrame :=
  match fuel with
  | 0 => []
  | n + 1 =>
    match stack[i]? with
    | some fr => frame_view env fr :: stack_frames_loop env stack n (i + 1)
    | none => []

/-- The paused branch of the `StackFrames` handler: `start` defaults to 0,
`end` is the wrapping 32-bit sum of `start` and `count` (defaulting to the
`as u32`-cast stack length), and the frames are gathered by the clipping
loop; `total_count` is the `as u32`-cast stack length. -/
def stack_frames_response (env : DmEnv) (stack : List DmFrame)
    (start_frame count : Option Nat) : Response :=
  let start := start_frame.getD 0
  let e := u32_add start (count.getD (u32_mod stack.length))
  Response.StackFrames (stack_frames_loop env stack (e - start) start) (u32_mod stack.length)

/-- `Server::send_or_disconnect`: no-op without a session; with a session,
record the response when the transport write succeeds, otherwise drop the
session (the response is lost). -/
def Server.send_or_disconnect (env : DmEnv) (s : Server) (resp : Response) :
    Server × List Response :=
  match s.stream with
  | none => (s, [])
  | some _ =>
    if env.write_ok resp then (s, [resp])
    else ({ s with stream := none }, [])

/-- Send a response and return from `handle_request` with pause flag `b`
(the common tail of almost every dispatch arm). -/
def ok_send (env : DmEnv) (s : Server) (resp : Response) (b : Bool) :
    Except String (Server × List Response × Bool) :=
  let (s', out) := Server.send_or_disconnect env s resp
  .ok (s', out, b)

/-- The message of the source's `assert_eq!(thread_id, 0)`. -/
def assert_thread_id_msg : String := "assertion failed: thread_id == 0"

/-- `Server::handle_request`, the shared dispatch table. The returned
`Bool` is the source's "we need to break" flag (only `Pause` sets it);
`Except.error` models a panic (the `assert_eq!` on `thread_id`). -/
def Server.handle_request (env : DmEnv) (s : Server) (r : Request) :
    Except String (Server × List Response × Bool) :=
  match r with
  | .BreakpointSet instr =>
    let line := Server.get_line_number env instr.proc instr.offset
    match env.find_override instr.proc.path instr.proc.override_id with
    | some _ =>
      if env.hook_ok instr.proc.path instr.proc.override_id instr.offset then
        ok_send env s (.BreakpointSet (.Success line)) false
      else
        ok_send env s (.BreakpointSet .Failed) false
    | none => ok_send env s (.BreakpointSet .Failed) false
  | .BreakpointUnset instr =>
    match env.find_override instr.proc.path instr.proc.override_id with
    | some _ =>
      if env.unhook_ok instr.proc.path instr.proc.override_id instr.offset then
        ok_send env s (.BreakpointUnset true) false
      else
        ok_send env s (.BreakpointUnset false) false
    | none => ok_send env s (.BreakpointUnset false) false
  | .LineNumber proc offset =>
    ok_send env s (.LineNumber (Server.get_line_number env proc offset)) false
  | .Offset proc line =>
    match env.find_override proc.path proc.override_id with
    | some dism => ok_send env s (.Offset (offset_for_line_scan false dism line)) false
    | none => ok_send env s (.Offset none) false
  | .StackFrames thread_id start_frame count =>
    if thread_id = 0 then
      match s.call_stacks with
      | some stks =>
        ok_send env s (stack_frames_response env stks.active start_frame count) false
      | none => ok_send env s (.StackFrames [] 0) false
    else .error assert_thread_id_msg
  | .Scopes frame_id =>
    match s.call_stacks with
    | some stks =>
      match stks.active[frame_id]? with
      | some fr =>
        let arguments :=
          if fr.args.isEmpty then none
          else some (VariablesRef.Arguments (u16_mod frame_id))
        let locals :=
          if fr.locals.isEmpty then none
          else some (VariablesRef.Locals (u16_mod frame_id))
        let globals := some (VariablesRef.Internal (u8_mod env.globals_tag) env.globals_data)
        ok_send env s (.Scopes arguments locals globals) false
      | none => ok_send env s (.Scopes none none none) false
    | none => ok_send env s (.Scopes none none none) false
  | .Variables vars =>
    match vars with
    | .Internal tag data =>
      match env.value_to_variables tag data with
      | .ok vs => ok_send env s (.Variables vs) false
      | .error _ => ok_send env s (.Variables []) false
    | _ => ok_send env s (.Variables []) false
  | .Continue _ => .ok (s, [], false)
  | .Pause => .ok (s, [], true)

/-- The drain loop of `Server::process`: `should_pause = should_pause ||
handle_request(request)` — the short-circuiting `||` skips
`handle_request` entirely once `should_pause` is true, though the request
is still consumed from the channel. -/
def Server.process_loop (env : DmEnv) (s : Server) (pending : List Request)
    (should_pause : Bool) (acc : List Response) :
    Except String (Server × List Response × Bool) :=
  match pending with
  | [] => .ok (s, acc, should_pause)
  | r :: rest =>
    if should_pause then Server.process_loop env s rest true acc
    else
      match Server.handle_request env s r with
      | .ok (s', out, b) => Server.process_loop env s' rest b (acc ++ out)
      | .error e => .error e

/-- `Server::process`: install a handed-off stream if none is present yet
(returning `false` when none is available), then drain every queued
request through the loop. `conn` is the current content of the one-shot
connection channel; `pending` the FIFO request channel content. -/
def Server.process (env : DmEnv) (s : Server) (conn : Option Unit)
    (pending : List Request) : Except String (Server × List Response × Bool) :=
  match s.stream with
  | some _ => Server.process_loop env s pending false []
  | none =>
    match conn with
    | some _ => Server.process_loop env { s with stream := some () } pending false []
    | none => .ok (s, [], false)

/-- The blocking receive loop of `Server::handle_breakpoint`: a `Continue`
request is hijacked (snapshot discarded, its kind returned); every other
request goes through the shared dispatch (its pause flag ignored); channel
exhaustion (client gone) discards the snapshot and resumes with the
default kind. -/
def Server.breakpoint_loop (env : DmEnv) (s : Server) (reqs : List Request)
    (acc : List Response) : Except String (Server × List Response × ContinueKind) :=
  match reqs with
  | [] => .ok ({ s with call_stacks := none }, acc, ContinueKind.Continue)
  | .Continue kind :: _ => .ok ({ s with call_stacks := none }, acc, kind)
  | r :: rest =>
    match Server.handle_request env s r with
    | .ok (s', out, _) => Server.breakpoint_loop env s' rest (acc ++ out)
    | .error e => .error e

/-- `Server::handle_breakpoint`: capture the stack snapshot, push the
unsolicited `BreakpointHit`, then block on the request channel until a
`Continue` arrives or the channel closes. `reqs` is the sequence of
requests received before the channel closes. -/
def Server.handle_breakpoint (env : DmEnv) (s : Server) (reason : BreakpointReason)
    (reqs : List Request) : Except String (Server × List Response × ContinueKind) :=
  let s0 : Server := { s with call_stacks := some env.capture_stacks }
  let (s1, out) := Server.send_or_disconnect env s0 (.BreakpointHit reason)
  Server.breakpoint_loop env s1 reqs out

/-- `slice::split` on the zero byte: every maximal delimiter-free segment,
including empty ones adjacent to delimiters and at the ends. -/
def split_zero (l : List Nat) : List (List Nat) :=
  match l with
  | [] => [[]]
  | b :: rest =>
    if b = 0 then [] :: split_zero rest
    else
      match split_zero rest with
      | s :: ss => (b :: s) :: ss
      | [] => [[b]]

/-- The fragment loop of `ServerThread::run`: skip empty fragments, decode
and forward each non-empty one in order; a decode failure terminates the
thread (`true` in the second component), keeping the requests forwarded
before the failure. -/
def forward_fragments (dec : List Nat → Option Request) (frags : List (List Nat)) :
    List Request × Bool :=
  match frags with
  | [] => ([], false)
  | f :: fs =>
    if f.isEmpty then forward_fragments dec fs
    else
      match dec f with
      | some r =>
        let (rs, died) := forward_fragments dec fs
        (r :: rs, died)
      | none => ([], true)

/-- `iter().rposition(|x| *x == 0)`: index of the last zero byte. -/
def rposition_zero (l : List Nat) : Option Nat :=
  match l with
  | [] => none
  | b :: rest =>
    match rposition_zero rest with
    | some i => some (i + 1)
    | none => if b = 0 then some 0 else none

/-- The buffer-clearing step of `ServerThread::run`:
`queued_data.drain(..idx)` for the last zero's index `idx` — everything
strictly before the last delimiter is removed, the delimiter itself and
the trailing fragment are kept; no-op when no delimiter is present. -/
def clear_finished (l : List Nat) : List Nat :=
  match rposition_zero l with
  | some idx => l.drop idx
  | none => l

/-- One iteration of the read loop of `ServerThread::run` after a read of
`chunk`: append to the buffer, split the whole buffer on zero bytes,
forward each decodable non-empty fragment, then clear finished messages.
Returns the forwarded requests, the termination flag, and the retained
buffer. -/
def ServerThread.run_step (dec : List Nat → Option Request) (buf chunk : List Nat) :
    List Request × Bool × List Nat :=
  let buf1 := buf ++ chunk
  let (rs, died) := forward_fragments dec (split_zero buf1)
  (rs, died, clear_finished buf1)

/-- The read loop of `ServerThread::run` over a sequence of observed reads:
an empty read (`Ok(0)`, stream closed) or a decode failure ends the loop;
otherwise iterate with the retained buffer. Returns every request
forwarded to the dispatcher, in order. -/
def ServerThread.run_loop (dec : List Nat → Option Request) (buf : List Nat)
    (acc : List Request) (chunks : List (List Nat)) : List Request :=
  match chunks with
  | [] => acc
  | c :: cs =>
    if c.isEmpty then acc
    else
      let (rs, died, buf') := ServerThread.run_step dec buf c
      if died then acc ++ rs
      else ServerThread.run_loop dec buf' (acc ++ rs) cs

/-- `ServerThread::run` starting from an empty buffer. -/
def ServerThread.run (dec : List Nat → Option Request) (chunks : List (List Nat)) :
    List Request :=
  ServerThread.run_loop dec [] [] chunks

/-- `true` exactly on `Pause` requests. -/
def is_pause_request (r : Request) : Bool :=
  match r with
  | .Pause => true
  | _ => false

/-- `true` exactly on `Continue` requests. -/
def is_continue_request (r : Request) : Bool :=
  match r with
  | .Continue _ => true
  | _ => false

/-- `true` when dispatching the request cannot trip the source's
`assert_eq!(thread_id, 0)`: every request except a `StackFrames` with a
non-zero thread id. -/
def asserts_ok (r : Request) : Bool :=
  match r with
  | .StackFrames tid _ _ => tid == 0
  | _ => true

/-- Reference semantics for the spec's "processes each drained request
through the shared request-handling logic": every request is dispatched
in order, with all emitted responses concatenated. -/
def run_all (env : DmEnv) (s : Server) (pending : List Request) :
    Except String (Server × List Response) :=
  match pending with
  | [] => .ok (s, [])
  | r :: rest =>
    match Server.handle_request env s r with
    | .ok (s', out, _) =>
      match run_all env s' rest with
      | .ok (s'', out') => .ok (s'', out ++ out')
      | .error e => .error e
    | .error e => .error e

/-- The line payload of a line-annotation entry, `none` otherwise. -/
def dbg_line_of (e : Nat × Instruction) : Option (Nat × Nat) :=
  match e.2 with
  | .DbgLine l => some (e.1, l)
  | _ => none

/-- The tracking step of the line resolver: a `DbgLine` replaces the
tracked line, anything else keeps it. -/
def track_line (cur : Option Nat) (e : Nat × Instruction) : Option Nat :=
  match e.2 with
  | .DbgLine l => some l
  | _ => cur

/-- Concatenation of zero-terminated encodings of a batch of messages: the
shape of one network read that ends exactly on a message boundary. -/
def encode_chunk (msgs : List (List Nat)) : List Nat :=
  (msgs.map (fun m => m ++ [0])).flatten

/-! ## Concrete fixtures used by witnesses and counterexamples -/

/-- A call-stack frame with no argument or local bindings. -/
def mk_frame (p : String) (o : Nat) : DmFrame :=
  { proc_path := p, offset := o, args := [], locals := [] }

/-- A five-frame stack, as in the spec's pagination examples. -/
def stack5 : List DmFrame :=
  [mk_frame "/proc/f0" 0, mk_frame "/proc/f1" 1, mk_frame "/proc/f2" 2,
   mk_frame "/proc/f3" 3, mk_frame "/proc/f4" 4]

/-- A two-frame stack. -/
def stack2 : List DmFrame := [mk_frame "/proc/g0" 0, mk_frame "/proc/g1" 1]

/-- A concrete environment: no resolvable procs, hooks succeed, the
captured snapshot is `stack5`, reflection yields nothing, writes succeed. -/
def env0 : DmEnv :=
  { find_override := fun _ _ => none
    hook_ok := fun _ _ _ => true
    unhook_ok := fun _ _ _ => true
    capture_stacks := { active := stack5 }
    globals_tag := 14
    globals_data := 0
    value_to_variables := fun _ _ => .ok []
    write_ok := fun _ => true }

/-- A dispatcher with an installed session and no active pause. -/
def st_idle : Server := { call_stacks := none, stream := some () }

/-- A concrete proc reference. -/
def proc_q : ProcRef := { path := "/proc/q", override_id := 0 }

/-- A concrete request decoder for framing examples: the byte `1` encodes
`Pause` and the byte `2` encodes `Scopes 0`; everything else is a decode
error. -/
def dec0 : List Nat → Option Request := fun l =>
  match l with
  | [1] => some Request.Pause
  | [2] => some (Request.Scopes 0)
  | _ => none

/-- A disassembly with annotation offsets 1 < 3 < 5 carrying lines
10, 20, 30. -/
def dism5 : List (Nat × Instruction) :=
  [(0, .Other 0), (1, .DbgLine 10), (2, .Other 1), (3, .DbgLine 20),
   (4, .Other 2), (5, .DbgLine 30), (6, .Other 3)]

/-- An environment in which every proc disassembles to `dism5`. -/
def env5 : DmEnv := { env0 with find_override := fun _ _ => some dism5 }

/-- A disassembly with two annotations for line 10 (offsets 0 and 3), the
first immediately followed by an annotation for line 20. -/
def dism6 : List (Nat × Instruction) :=
  [(0, .DbgLine 10), (1, .DbgLine 20), (2, .Other 0), (3, .DbgLine 10),
   (4, .Other 1)]

/-- An environment in which every proc disassembles to `dism6`. -/
def env6 : DmEnv := { env0 with find_override := fun _ _ => some dism6 }

/-- A disassembly whose single annotation (line 7 at offset 1) has a
following instruction at offset 2. -/
def dism_rt : List (Nat × Instruction) := [(0, .Other 0), (1, .DbgLine 7), (2, .Other 1)]

/-- An environment in which every proc disassembles to `dism_rt`. -/
def env_rt : DmEnv := { env0 with find_override := fun _ _ => some dism_rt }

/-! ## Theorems -/

/-- Counterexample for C1: `handle_request` on a `StackFrames` request with
`thread_id = 1` trips the source's `assert_eq!(thread_id, 0)` — it panics
instead of answering with an empty response. -/
theorem spec2proof_C1_cex :
    Server.handle_request env0 st_idle (Request.StackFrames 1 none none) =
      Except.error assert_thread_id_msg := rfl

/-- Counterexample for C2: with an installed session, a queue holding a
`Pause` followed by a `LineNumber` request is drained by `process`, but the
`LineNumber` request is never put through the shared request-handling logic
(no response is emitted), because the source's short-circuiting
`should_pause || handle_request(..)` skips it; dispatching that same request
does emit its response. -/
theorem spec2proof_C2_cex :
    Server.process env0 st_idle none [Request.Pause, Request.LineNumber proc_q 0] =
      Except.ok (st_idle, ([] : List Response), true) ∧
    Server.handle_request env0 st_idle (Request.LineNumber proc_q 0) =
      Except.ok (st_idle, [Response.LineNumber none], false) :=
  ⟨rfl, rfl⟩

/-- Counterexample for C3: the delimited stream `[1,0,2,0]` (two encoded
requests) chunked as `[1,0,2]` then `[0]` makes the ingestor forward the
second request twice: the trailing fragment `[2]` is decoded and forwarded
in the first iteration, retained in the buffer (the drain keeps the last
delimiter), and decoded again in the second iteration. -/
theorem spec2proof_C3_cex :
    ServerThread.run dec0 [[1, 0, 2], [0]] =
      [Request.Pause, Request.Scopes 0, Request.Scopes 0] ∧
    ServerThread.run dec0 [[1, 0, 2], [0]] ≠ [Request.Pause, Request.Scopes 0] :=
  ⟨rfl, by decide⟩

/-- Counterexample for C4: after a read of `[1,0]`, the retained buffer is
`[0]`, not the bytes strictly after the last delimiter (which are `[]`):
`drain(..idx)` keeps the delimiter byte itself. -/
theorem spec2proof_C4_cex :
    (ServerThread.run_step dec0 [] [1, 0]).2.2 = [0] ∧
    (ServerThread.run_step dec0 [] [1, 0]).2.2 ≠ ([] : List Nat) :=
  ⟨rfl, by decide⟩

/-- Counterexample for C6: in `dism6`, line 10 has an annotation (offset 3)
whose following instruction is at offset `X = 4`, yet
`lineForOffset(offsetForLine(10)) = some 20` (the scan returns the
successor of the first annotation for line 10, which is itself an
annotation for line 20) while `lineForOffset(4) = some 10`. -/
theorem spec2proof_C6_cex :
    dism6.filterMap dbg_line_of = [(0, 10), (1, 20), (3, 10)] ∧
    offset_for_line_scan false dism6 10 = some 1 ∧
    (offset_for_line_scan false dism6 10).bind
      (fun o => Server.get_line_number env6 proc_q o) = some 20 ∧
    Server.get_line_number env6 proc_q 4 = some 10 ∧
    (some 20 : Option Nat) ≠ some 10 :=
  ⟨rfl, rfl, rfl, rfl, by decide⟩

/-- C10: in the paused `StackFrames` handler the end index is the wrapping
32-bit sum `start_frame + count`; with `start_frame = 1` and
`count = 2^32 - 1` on a two-frame stack the sum wraps to 0 and the handler
returns an empty frame list (with the true total), even though a frame at
index ≥ 1 exists. -/
theorem spec2proof_C10 :
    stack_frames_response env0 stack2 (some 1) (some 4294967295) =
      Response.StackFrames [] 2 ∧
    u32_add 1 4294967295 = 0 ∧
    1 < stack2.length :=
  ⟨rfl, rfl, by decide⟩

/-! ## Line resolver lemmas -/

/-- The scan returns `none` for a query that is not an exact instruction
offset of the disassembly, whatever line is currently tracked. -/
theorem get_line_number_scan_not_mem (x : Nat) :
    ∀ (dism : List (Nat × Instruction)) (cur : Option Nat),
      x ∉ dism.map Prod.fst → get_line_number_scan cur dism x = none := by
  intro dism
  induction dism with
  | nil => intro cur _; rfl
  | cons e rest ih =>
    intro cur hx
    obtain ⟨io, inst⟩ := e
    simp only [List.map_cons, List.mem_cons, not_or] at hx
    simp only [get_line_number_scan]
    rw [if_neg (fun h => hx.1 h.symm)]
    exact ih _ hx.2

/-- On reaching the queried offset, the scan has folded `track_line` over
exactly the entries up to and including that offset's (first) entry. -/
theorem get_line_number_scan_mem (x : Nat) (inst : Instruction)
    (rest : List (Nat × Instruction)) :
    ∀ (pre : List (Nat × Instruction)) (cur : Option Nat),
      x ∉ pre.map Prod.fst →
      get_line_number_scan cur (pre ++ (x, inst) :: rest) x =
        List.foldl track_line cur (pre ++ [(x, inst)]) := by
  intro pre
  induction pre with
  | nil =>
    intro cur _
    cases inst <;> simp [get_line_number_scan, track_line]
  | cons e pre ih =>
    intro cur hx
    obtain ⟨io, i2⟩ := e
    simp only [List.map_cons, List.mem_cons, not_or] at hx
    simp only [List.cons_append, get_line_number_scan, List.foldl_cons]
    rw [if_neg (fun h => hx.1 h.symm)]
    exact ih _ hx.2

/-- Folding `track_line` computes the line of the last annotation of the
list, or keeps the incoming tracked value when there is none. -/
theorem foldl_track_line (l : List (Nat × Instruction)) :
    ∀ cur : Option Nat,
      List.foldl track_line cur l =
        (match (l.filterMap dbg_line_of).getLast? with
          | some q => some q.2
          | none => cur) := by
  induction l using List.reverseRecOn with
  | nil => intro cur; rfl
  | append_singleton l e ih =>
    intro cur
    obtain ⟨io, i2⟩ := e
    rw [List.foldl_append, List.filterMap_append]
    cases i2 with
    | DbgLine n =>
      simp [track_line, dbg_line_of, List.getLast?_append]
    | Other c =>
      simp only [List.foldl_cons, List.foldl_nil, track_line, dbg_line_of,
        List.filterMap_cons, List.filterMap_nil, List.append_nil]
      exact ih cur

/-- A successful `dbg_line_of` preserves the offset and identifies the
instruction as a `DbgLine`. -/
theorem dbg_line_of_eq_some {e : Nat × Instruction} {q : Nat × Nat}
    (h : dbg_line_of e = some q) : q.1 = e.1 ∧ e.2 = Instruction.DbgLine q.2 := by
  obtain ⟨io, i2⟩ := e
  cases i2 with
  | DbgLine n =>
    simp only [dbg_line_of] at h
    cases h
    exact ⟨rfl, rfl⟩
  | Other c => simp [dbg_line_of] at h

/-- On a strictly sorted disassembly, the annotations up to and including
the entry at offset `x` are exactly the annotations with offset at most
`x`. -/
theorem filterMap_prefix_eq_filter (pre rest : List (Nat × Instruction))
    (x : Nat) (inst : Instruction)
    (hs : (((pre ++ (x, inst) :: rest)).map Prod.fst).Pairwise (· < ·)) :
    ((pre ++ (x, inst) :: rest).filterMap dbg_line_of).filter
        (fun q => decide (q.1 ≤ x)) =
      (pre ++ [(x, inst)]).filterMap dbg_line_of := by
  rw [List.map_append, List.map_cons, List.pairwise_append] at hs
  obtain ⟨hpre, hrest, hcross⟩ := hs
  rw [List.pairwise_cons] at hrest
  have hpre_lt : ∀ q ∈ pre.filterMap dbg_line_of, q.1 < x := by
    intro q hq
    obtain ⟨e, he, hde⟩ := List.mem_filterMap.mp hq
    have := (dbg_line_of_eq_some hde).1
    rw [this]
    exact hcross e.1 (List.mem_map_of_mem Prod.fst he) x (by simp)
  have hrest_gt : ∀ q ∈ rest.filterMap dbg_line_of, x < q.1 := by
    intro q hq
    obtain ⟨e, he, hde⟩ := List.mem_filterMap.mp hq
    have := (dbg_line_of_eq_some hde).1
    rw [this]
    exact hrest.1 e.1 (List.mem_map_of_mem Prod.fst he)
  rw [List.filterMap_append, List.filterMap_append, List.filterMap_cons,
    List.filter_append]
  have h1 : (pre.filterMap dbg_line_of).filter (fun q => decide (q.1 ≤ x)) =
      pre.filterMap dbg_line_of := by
    rw [List.filter_eq_self]
    intro q hq
    exact decide_eq_true (Nat.le_of_lt (hpre_lt q hq))
  rw [h1]
  cases hd : dbg_line_of (x, inst) with
  | some q =>
    have hq1 : q.1 = x := (dbg_line_of_eq_some hd).1
    have h2 : (q :: rest.filterMap dbg_line_of).filter (fun q => decide (q.1 ≤ x)) =
        [q] := by
      rw [List.filter_cons]
      rw [if_pos (by rw [hq1]; simp)]
      congr 1
      rw [List.filter_eq_nil_iff]
      intro a ha
      simp only [decide_eq_true_eq]
      exact Nat.not_le.mpr (hrest_gt a ha)
    rw [h2, List.filterMap_cons, hd, List.filterMap_nil]
  | none =>
    have h2 : (rest.filterMap dbg_line_of).filter (fun q => decide (q.1 ≤ x)) = [] := by
      rw [List.filter_eq_nil_iff]
      intro a ha
      simp only [decide_eq_true_eq]
      exact Nat.not_le.mpr (hrest_gt a ha)
    rw [h2, List.filterMap_cons, hd, List.filterMap_nil, List.append_nil]

/-- On a strictly sorted disassembly, `get_line_number` at an exact
instruction offset `x` is the line of the last annotation whose offset is
at most `x` (`none` when no annotation precedes). -/
theorem get_line_number_sorted (env : DmEnv) (p : ProcRef)
    (dism : List (Nat × Instruction))
    (hfind : env.find_override p.path p.override_id = some dism)
    (hs : (dism.map Prod.fst).Pairwise (· < ·)) (x : Nat)
    (hx : x ∈ dism.map Prod.fst) :
    Server.get_line_number env p x =
      (match ((dism.filterMap dbg_line_of).filter (fun q => decide (q.1 ≤ x))).getLast? with
        | some q => some q.2
        | none => none) := by
  obtain ⟨e, he, hfst⟩ := List.mem_map.mp hx
  obtain ⟨pre, rest, hd⟩ := List.append_of_mem he
  subst hd
  obtain ⟨io, i2⟩ := e
  have hfst' : io = x := hfst
  subst hfst'
  have hxpre : io ∉ pre.map Prod.fst := by
    intro hmem
    rw [List.map_append, List.map_cons, List.pairwise_append] at hs
    exact lt_irrefl io (hs.2.2 io hmem io (by simp))
  simp only [Server.get_line_number, hfind]
  rw [get_line_number_scan_mem io i2 rest pre none hxpre]
  rw [foldl_track_line]
  rw [filterMap_prefix_eq_filter pre rest io i2 hs]

/-- C5: on a proc whose strictly sorted disassembly has exactly the
line-annotation instructions `(o1,l1), (o2,l2), (o3,l3)` with
`o1 < o2 < o3`, `get_line_number` returns `some l_i` at every exact
instruction offset `x` with `o_i ≤ x < o_{i+1}` (and `some l3` for
`o3 ≤ x`), returns `none` at exact instruction offsets preceding `o1`, and
returns `none` at every queried offset that is not an exact instruction
boundary. -/
theorem spec2proof_C5 (env : DmEnv) (p : ProcRef)
    (dism : List (Nat × Instruction))
    (hfind : env.find_override p.path p.override_id = some dism)
    (hs : (dism.map Prod.fst).Pairwise (· < ·))
    (o1 l1 o2 l2 o3 l3 : Nat)
    (hann : dism.filterMap dbg_line_of = [(o1, l1), (o2, l2), (o3, l3)])
    (h12 : o1 < o2) (h23 : o2 < o3) :
    (∀ x, x ∉ dism.map Prod.fst → Server.get_line_number env p x = none) ∧
    (∀ x, x ∈ dism.map Prod.fst → x < o1 → Server.get_line_number env p x = none) ∧
    (∀ x, x ∈ dism.map Prod.fst → o1 ≤ x → x < o2 →
      Server.get_line_number env p x = some l1) ∧
    (∀ x, x ∈ dism.map Prod.fst → o2 ≤ x → x < o3 →
      Server.get_line_number env p x = some l2) ∧
    (∀ x, x ∈ dism.map Prod.fst → o3 ≤ x →
      Server.get_line_number env p x = some l3) := by
  refine ⟨?_, ?_, ?_, ?_, ?_⟩
  · intro x hx
    unfold Server.get_line_number
    rw [hfind]
    exact get_line_number_scan_not_mem x dism none hx
  · intro x hx h1
    rw [get_line_number_sorted env p dism hfind hs x hx, hann]
    rw [List.filter_cons, List.filter_cons, List.filter_cons, List.filter_nil]
    rw [if_neg (by simp; omega), if_neg (by simp; omega), if_neg (by simp; omega)]
    rfl
  · intro x hx h1 h2
    rw [get_line_number_sorted env p dism hfind hs x hx, hann]
    rw [List.filter_cons, List.filter_cons, List.filter_cons, List.filter_nil]
    rw [if_pos (by simp; omega), if_neg (by simp; omega), if_neg (by simp; omega)]
    rfl
  · intro x hx h1 h2
    rw [get_line_number_sorted env p dism hfind hs x hx, hann]
    rw [List.filter_cons, List.filter_cons, List.filter_cons, List.filter_nil]
    rw [if_pos (by simp; omega), if_pos (by simp; omega), if_neg (by simp; omega)]
    rfl
  · intro x hx h1
    rw [get_line_number_sorted env p dism hfind hs x hx, hann]
    rw [List.filter_cons, List.filter_cons, List.filter_cons, List.filter_nil]
    rw [if_pos (by simp; omega), if_pos (by simp; omega), if_pos (by simp; omega)]
    rfl

/-- Witness for C5: in `dism5` (annotations `(1,10),(3,20),(5,30)`), the
instruction offset 4 lies in `[3, 5)` and resolves to line 20. -/
theorem spec2proof_C5_witness :
    Server.get_line_number env5 proc_q 4 = some 20 :=
  (spec2proof_C5 env5 proc_q dism5 rfl (by decide) 1 10 3 20 5 30 rfl
    (by decide) (by decide)).2.2.2.1 4 (by decide) (by decide) (by decide)

/-! ## StackFrames pagination lemmas -/

/-- The handler's range loop produces exactly the contiguous slice of the
stack from index `i` up to (exclusive) `min (i + fuel) stack.length`,
mapped through the frame view. -/
theorem stack_frames_loop_eq (env : DmEnv) (stack : List DmFrame) :
    ∀ (fuel i : Nat),
      stack_frames_loop env stack fuel i =
        ((stack.take (min (i + fuel) stack.length)).drop i).map (frame_view env) := by
  intro fuel
  induction fuel with
  | zero =>
    intro i
    have hlen : (stack.take (min (i + 0) stack.length)).length ≤ i := by
      rw [List.length_take]
      omega
    rw [List.drop_eq_nil_of_le hlen]
    rfl
  | succ n ih =>
    intro i
    cases hgi : stack[i]? with
    | none =>
      have hlen : stack.length ≤ i := by
        simpa using List.getElem?_eq_none_iff.mp hgi
      have hmin : min (i + (n + 1)) stack.length = stack.length := by omega
      simp only [stack_frames_loop, hgi]
      rw [hmin, List.take_length, List.drop_eq_nil_of_le hlen]
      rfl
    | some fr =>
      have hil : i < stack.length := by
        by_contra hcon
        rw [List.getElem?_eq_none_iff.mpr (by omega)] at hgi
        cases hgi
      have hifr : stack[i] = fr := by
        have := List.getElem?_eq_getElem hil
        rw [hgi] at this
        exact (Option.some_inj.mp this).symm
      have hmin : min (i + (n + 1)) stack.length = min (i + 1 + n) stack.length := by
        omega
      have hlt : i < (stack.take (min (i + (n + 1)) stack.length)).length := by
        simp [List.length_take]
        omega
      simp only [stack_frames_loop, hgi]
      rw [ih (i + 1)]
      rw [List.drop_eq_getElem_cons hlt, List.getElem_take]
      rw [← hmin]
      simp [hifr]

/-- C7: in the paused `StackFrames` handler, when the 32-bit sum
`start + count` does not wrap, the response is exactly the contiguous
slice of the stack clipped to its bounds together with the true total
stack length; concretely on the five-frame stack: `start_frame=2, count=2`
returns the frames at indices 2 and 3 with `total_count = 5`;
`start_frame=4, count=10` returns only frame 4; `start_frame=10` returns
an empty list with `total_count = 5`. -/
theorem spec2proof_C7 :
    (∀ (env : DmEnv) (stack : List DmFrame) (sf cnt : Option Nat),
        stack.length < 4294967296 →
        sf.getD 0 + cnt.getD stack.length < 4294967296 →
        stack_frames_response env stack sf cnt =
          Response.StackFrames
            (((stack.take (min (sf.getD 0 + cnt.getD stack.length) stack.length)).drop
                (sf.getD 0)).map (frame_view env))
            stack.length) ∧
    stack_frames_response env0 stack5 (some 2) (some 2) =
      Response.StackFrames
        [frame_view env0 (mk_frame "/proc/f2" 2), frame_view env0 (mk_frame "/proc/f3" 3)] 5 ∧
    stack_frames_response env0 stack5 (some 4) (some 10) =
      Response.StackFrames [frame_view env0 (mk_frame "/proc/f4" 4)] 5 ∧
    stack_frames_response env0 stack5 (some 10) none =
      Response.StackFrames [] 5 := by
  refine ⟨?_, rfl, rfl, rfl⟩
  intro env stack sf cnt hlen hsum
  have hmod : u32_mod stack.length = stack.length := Nat.mod_eq_of_lt hlen
  have hadd : u32_add (sf.getD 0) (cnt.getD stack.length) =
      sf.getD 0 + cnt.getD stack.length := Nat.mod_eq_of_lt hsum
  simp only [stack_frames_response, hmod, hadd]
  rw [stack_frames_loop_eq, Nat.add_sub_cancel_left]

/-- Witness for C7: the general pagination statement applied to the
five-frame stack with `start_frame = 2`, `count = 2`. -/
theorem spec2proof_C7_witness :
    stack_frames_response env0 stack5 (some 2) (some 2) =
      Response.StackFrames
        (((stack5.take (min ((some 2).getD 0 + (some 2).getD stack5.length)
            stack5.length)).drop ((some 2).getD 0)).map (frame_view env0))
        stack5.length :=
  spec2proof_C7.1 env0 stack5 (some 2) (some 2) (by decide) (by decide)

/-! ## Offset round-trip lemmas -/

/-- The `Offset` handler's scan, run on a disassembly whose first
annotation for `line` is followed by an instruction at offset `X`, returns
exactly `some X`. -/
theorem offset_for_line_scan_first (L : Nat) :
    ∀ (pre : List (Nat × Instruction)) (oa X : Nat) (inst : Instruction)
      (rest : List (Nat × Instruction)),
      (∀ e ∈ pre, e.2 ≠ Instruction.DbgLine L) →
      offset_for_line_scan false (pre ++ (oa, Instruction.DbgLine L) :: (X, inst) :: rest) L =
        some X := by
  intro pre
  induction pre with
  | nil =>
    intro oa X inst rest _
    simp [offset_for_line_scan]
  | cons e pre ih =>
    intro oa X inst rest h
    obtain ⟨io, i2⟩ := e
    have h2 : i2 ≠ Instruction.DbgLine L := h (io, i2) (by simp)
    cases i2 with
    | DbgLine c =>
      have hc : c ≠ L := fun hcL => h2 (by rw [hcL])
      simp only [List.cons_append, offset_for_line_scan, Bool.false_eq_true, if_false]
      rw [if_neg hc]
      exact ih oa X inst rest (fun e he => h e (List.mem_cons_of_mem _ he))
    | Other c =>
      simp only [List.cons_append, offset_for_line_scan, Bool.false_eq_true, if_false]
      exact ih oa X inst rest (fun e he => h e (List.mem_cons_of_mem _ he))

/-- C6 (amended): when `X` is the offset of the instruction immediately
following the first annotation for line `L`, the `Offset` handler's scan
returns exactly `some X`, and hence
`lineForOffset(offsetForLine(L)) = lineForOffset(X)`. -/
theorem spec2proof_C6 (env : DmEnv) (p : ProcRef)
    (dism pre rest : List (Nat × Instruction)) (oa X L : Nat) (inst : Instruction)
    (hfind : env.find_override p.path p.override_id = some dism)
    (hdism : dism = pre ++ (oa, Instruction.DbgLine L) :: (X, inst) :: rest)
    (hpre : ∀ e ∈ pre, e.2 ≠ Instruction.DbgLine L) :
    offset_for_line_scan false dism L = some X ∧
    (offset_for_line_scan false dism L).bind (fun o => Server.get_line_number env p o) =
      Server.get_line_number env p X := by
  have h1 : offset_for_line_scan false dism L = some X := by
    rw [hdism]
    exact offset_for_line_scan_first L pre oa X inst rest hpre
  exact ⟨h1, by rw [h1]; rfl⟩

/-- Witness for C6: in `dism_rt` the single annotation for line 7 has its
follower at offset 2, and both round-trip equalities hold there. -/
theorem spec2proof_C6_witness :
    offset_for_line_scan false dism_rt 7 = some 2 ∧
    (offset_for_line_scan false dism_rt 7).bind
        (fun o => Server.get_line_number env_rt proc_q o) =
      Server.get_line_number env_rt proc_q 2 :=
  spec2proof_C6 env_rt proc_q dism_rt [(0, .Other 0)] [] 1 2 7 (.Other 1) rfl rfl
    (by decide)

/-! ## Dispatch table lemmas -/

/-- Sending never touches the pause snapshot: only the stream can change. -/
theorem send_or_disconnect_call_stacks (env : DmEnv) (s : Server) (resp : Response) :
    (Server.send_or_disconnect env s resp).1.call_stacks = s.call_stacks := by
  unfold Server.send_or_disconnect
  cases s.stream with
  | none => rfl
  | some u =>
    by_cases h : env.write_ok resp = true
    · simp [h]
    · simp [h]

/-- `ok_send` always succeeds with the given pause flag and an unchanged
snapshot. -/
theorem ok_send_shape (env : DmEnv) (s : Server) (resp : Response) (b : Bool) :
    ∃ s' out, ok_send env s resp b = .ok (s', out, b) ∧ s'.call_stacks = s.call_stacks :=
  ⟨(Server.send_or_disconnect env s resp).1, (Server.send_or_disconnect env s resp).2,
    rfl, send_or_disconnect_call_stacks env s resp⟩

/-- With a live session and successful writes, `ok_send` records exactly
the one response and leaves the state unchanged. -/
theorem ok_send_write (env : DmEnv) (s : Server) (resp : Response) (b : Bool)
    (hstream : s.stream = some ()) (hw : env.write_ok resp = true) :
    ok_send env s resp b = .ok (s, [resp], b) := by
  unfold ok_send Server.send_or_disconnect
  rw [hstream]
  simp [hw]

/-- Shape of each arm of the dispatch table: either the request is a
`StackFrames` with a non-zero thread id, which trips the assertion, or
dispatch succeeds, with pause flag true exactly on `Pause` and the pause
snapshot untouched. -/
theorem handle_request_shape (env : DmEnv) (s : Server) (r : Request) :
    (∃ tid sf cnt, r = .StackFrames tid sf cnt ∧ tid ≠ 0 ∧
        Server.handle_request env s r = .error assert_thread_id_msg) ∨
    (∃ s' out, Server.handle_request env s r = .ok (s', out, is_pause_request r) ∧
        s'.call_stacks = s.call_stacks) := by
  cases r with
  | BreakpointSet instr =>
    right
    simp only [Server.handle_request]
    split
    · split
      · exact ok_send_shape env s _ _
      · exact ok_send_shape env s _ _
    · exact ok_send_shape env s _ _
  | BreakpointUnset instr =>
    right
    simp only [Server.handle_request]
    split
    · split
      · exact ok_send_shape env s _ _
      · exact ok_send_shape env s _ _
    · exact ok_send_shape env s _ _
  | LineNumber proc offset =>
    right
    exact ok_send_shape env s _ _
  | Offset proc line =>
    right
    simp only [Server.handle_request]
    split
    · exact ok_send_shape env s _ _
    · exact ok_send_shape env s _ _
  | StackFrames tid sf cnt =>
    by_cases h : tid = 0
    · right
      subst h
      simp only [Server.handle_request]
      split
      · split
        · exact ok_send_shape env s _ _
        · exact ok_send_shape env s _ _
      · rename_i hcon
        exact absurd trivial hcon
    · left
      exact ⟨tid, sf, cnt, rfl, h, by simp only [Server.handle_request, if_neg h]⟩
  | Scopes frame_id =>
    right
    simp only [Server.handle_request]
    split
    · split
      · exact ok_send_shape env s _ _
      · exact ok_send_shape env s _ _
    · exact ok_send_shape env s _ _
  | Variables vars =>
    right
    simp only [Server.handle_request]
    split
    · split
      · exact ok_send_shape env s _ _
      · exact ok_send_shape env s _ _
    · exact ok_send_shape env s _ _
  | Continue kind =>
    right
    exact ⟨s, [], rfl, rfl⟩
  | Pause =>
    right
    exact ⟨s, [], rfl, rfl⟩

/-- Dispatch of any request that does not trip the thread-id assertion
succeeds, pauses exactly on `Pause`, and preserves the snapshot. -/
theorem handle_request_ok (env : DmEnv) (s : Server) (r : Request)
    (h : asserts_ok r = true) :
    ∃ s' out, Server.handle_request env s r = .ok (s', out, is_pause_request r) ∧
      s'.call_stacks = s.call_stacks := by
  rcases handle_request_shape env s r with ⟨tid, sf, cnt, hr, hne, _⟩ | hok
  · subst hr
    simp only [asserts_ok, beq_iff_eq] at h
    exact absurd h hne
  · exact hok

/-- A successful dispatch leaves the pause snapshot unchanged. -/
theorem handle_request_call_stacks (env : DmEnv) (s : Server) (r : Request)
    (res : Server × List Response × Bool)
    (h : Server.handle_request env s r = .ok res) : res.1.call_stacks = s.call_stacks := by
  rcases handle_request_shape env s r with ⟨tid, sf, cnt, hr, hne, herr⟩ | ⟨s', out, hok, hcs⟩
  · rw [herr] at h
    cases h
  · rw [hok] at h
    injection h with h2
    rw [← h2]
    exact hcs

/-- C1 (amended): the contract violations other than a non-zero thread id
(a not-paused `StackFrames`, a `Scopes` that is not paused or names an
invalid frame, a `Continue` outside the pause loop) are answered with an
empty/None-valued response and do not panic; a `StackFrames` request with
non-zero `thread_id`, however, trips the assertion `thread_id == 0` for
every server state and environment. -/
theorem spec2proof_C1 :
    (∀ (env : DmEnv) (s : Server) (tid : Nat) (sf cnt : Option Nat), tid ≠ 0 →
        Server.handle_request env s (.StackFrames tid sf cnt) =
          .error assert_thread_id_msg) ∧
    (∀ (env : DmEnv) (s : Server) (sf cnt : Option Nat), s.call_stacks = none →
        s.stream = some () → (∀ resp, env.write_ok resp = true) →
        Server.handle_request env s (.StackFrames 0 sf cnt) =
          .ok (s, [Response.StackFrames [] 0], false)) ∧
    (∀ (env : DmEnv) (s : Server) (fid : Nat), s.call_stacks = none →
        s.stream = some () → (∀ resp, env.write_ok resp = true) →
        Server.handle_request env s (.Scopes fid) =
          .ok (s, [Response.Scopes none none none], false)) ∧
    (∀ (env : DmEnv) (s : Server) (stks : CallStacks) (fid : Nat),
        s.call_stacks = some stks → stks.active[fid]? = none →
        s.stream = some () → (∀ resp, env.write_ok resp = true) →
        Server.handle_request env s (.Scopes fid) =
          .ok (s, [Response.Scopes none none none], false)) ∧
    (∀ (env : DmEnv) (s : Server) (kind : ContinueKind),
        Server.handle_request env s (.Continue kind) = .ok (s, [], false)) := by
  refine ⟨?_, ?_, ?_, ?_, ?_⟩
  · intro env s tid sf cnt h
    simp only [Server.handle_request, if_neg h]
  · intro env s sf cnt hcs hstream hw
    simp only [Server.handle_request, if_pos rfl, hcs]
    exact ok_send_write env s _ false hstream (hw _)
  · intro env s fid hcs hstream hw
    simp only [Server.handle_request, hcs]
    exact ok_send_write env s _ false hstream (hw _)
  · intro env s stks fid hcs hnone hstream hw
    simp only [Server.handle_request, hcs, hnone]
    exact ok_send_write env s _ false hstream (hw _)
  · intro env s kind
    rfl

/-- Witness for C1: a not-paused `StackFrames` request with thread id 0 is
answered with the empty frame list and total 0. -/
theorem spec2proof_C1_witness :
    Server.handle_request env0 st_idle (Request.StackFrames 0 none none) =
      .ok (st_idle, [Response.StackFrames [] 0], false) :=
  spec2proof_C1.2.1 env0 st_idle none none rfl rfl (fun _ => rfl)

/-! ## Poll path lemmas -/

/-- Once the pause flag is set, the drain loop consumes the remaining
queue without dispatching anything. -/
theorem process_loop_skip (env : DmEnv) (s : Server) :
    ∀ (pending : List Request) (acc : List Response),
      Server.process_loop env s pending true acc = .ok (s, acc, true) := by
  intro pending
  induction pending with
  | nil => intro acc; rfl
  | cons r rest ih => intro acc; exact ih acc

/-- The drain loop, started with a clear pause flag on an assertion-safe
queue, dispatches exactly the prefix before the first `Pause` (matching
the reference semantics `run_all`) and reports whether any drained request
was a `Pause`. -/
theorem process_loop_eq_run_all (env : DmEnv) :
    ∀ (pending : List Request) (s : Server) (acc : List Response),
      (∀ r ∈ pending, asserts_ok r = true) →
      ∃ sF outF,
        run_all env s (pending.takeWhile (fun r => !is_pause_request r)) = .ok (sF, outF) ∧
        Server.process_loop env s pending false acc =
          .ok (sF, acc ++ outF, pending.any is_pause_request) := by
  intro pending
  induction pending with
  | nil =>
    intro s acc h
    exact ⟨s, [], rfl, by simp [Server.process_loop]⟩
  | cons r rest ih =>
    intro s acc h
    cases hp : is_pause_request r with
    | true =>
      have hr : r = Request.Pause := by
        cases r <;> simp_all [is_pause_request]
      subst hr
      refine ⟨s, [], ?_, ?_⟩
      · rw [List.takeWhile_cons]
        simp [is_pause_request, run_all]
      · have hstep : Server.process_loop env s (Request.Pause :: rest) false acc =
            Server.process_loop env s rest true (acc ++ []) := rfl
        rw [hstep, process_loop_skip]
        simp [is_pause_request]
    | false =>
      obtain ⟨s', out, heq, _⟩ := handle_request_ok env s r (h r (by simp))
      rw [hp] at heq
      obtain ⟨sF, outF, hrun, hloop⟩ :=
        ih s' (acc ++ out) (fun q hq => h q (List.mem_cons_of_mem _ hq))
      refine ⟨sF, out ++ outF, ?_, ?_⟩
      · rw [List.takeWhile_cons]
        simp only [hp, Bool.not_false, if_true]
        simp only [run_all, heq, hrun]
      · simp only [Server.process_loop, heq, Bool.false_eq_true, if_false]
        rw [hloop]
        simp [List.append_assoc, List.any_cons, hp]

/-- C2 (amended): with an installed session and an assertion-safe queue,
`process` drains the whole queue, dispatches exactly the requests up to
the first `Pause` through the shared request-handling logic (the rest are
discarded undispatched), and returns true iff any drained request was a
`Pause` — also when the `Pause` is not last. -/
theorem spec2proof_C2 (env : DmEnv) (s : Server) (pending : List Request)
    (hstream : s.stream = some ())
    (hok : ∀ r ∈ pending, asserts_ok r = true) :
    ∃ sF outF,
      run_all env s (pending.takeWhile (fun r => !is_pause_request r)) = .ok (sF, outF) ∧
      Server.process env s none pending = .ok (sF, outF, pending.any is_pause_request) := by
  obtain ⟨sF, outF, h1, h2⟩ := process_loop_eq_run_all env pending s [] hok
  refine ⟨sF, outF, h1, ?_⟩
  simp only [Server.process, hstream]
  simpa using h2

/-- Witness for C2: the queue `[Pause, LineNumber]` with an installed
session. -/
theorem spec2proof_C2_witness :
    ∃ sF outF,
      run_all env0 st_idle ([Request.Pause, Request.LineNumber proc_q 0].takeWhile
        (fun r => !is_pause_request r)) = .ok (sF, outF) ∧
      Server.process env0 st_idle none [Request.Pause, Request.LineNumber proc_q 0] =
        .ok (sF, outF, [Request.Pause, Request.LineNumber proc_q 0].any is_pause_request) :=
  spec2proof_C2 env0 st_idle [Request.Pause, Request.LineNumber proc_q 0] rfl (by decide)

/-! ## Breakpoint-pause loop lemmas -/

/-- For a non-`Continue` head request the pause loop dispatches it through
the shared logic and continues. -/
theorem breakpoint_loop_cons_of_not_continue (env : DmEnv) (s : Server) (r : Request)
    (rest : List Request) (acc : List Response)
    (h : is_continue_request r = false) :
    Server.breakpoint_loop env s (r :: rest) acc =
      (match Server.handle_request env s r with
        | .ok (s', out, _) => Server.breakpoint_loop env s' rest (acc ++ out)
        | .error e => .error e) := by
  cases r <;> first
    | rfl
    | simp [is_continue_request] at h

/-- The pause loop over a `Continue`-free, assertion-safe request sequence
ends by channel exhaustion: it returns the default `Continue` kind with
the snapshot cleared. -/
theorem breakpoint_loop_no_continue (env : DmEnv) :
    ∀ (reqs : List Request) (s : Server) (acc : List Response),
      (∀ r ∈ reqs, is_continue_request r = false) →
      (∀ r ∈ reqs, asserts_ok r = true) →
      ∃ s' out, Server.breakpoint_loop env s reqs acc =
          .ok (s', out, ContinueKind.Continue) ∧ s'.call_stacks = none := by
  intro reqs
  induction reqs with
  | nil =>
    intro s acc _ _
    exact ⟨{ s with call_stacks := none }, acc, rfl, rfl⟩
  | cons r rest ih =>
    intro s acc hnc hok
    obtain ⟨s', out, heq, _⟩ := handle_request_ok env s r (hok r (by simp))
    rw [breakpoint_loop_cons_of_not_continue env s r rest acc (hnc r (by simp)), heq]
    exact ih s' (acc ++ out) (fun q hq => hnc q (List.mem_cons_of_mem _ hq))
      (fun q hq => hok q (List.mem_cons_of_mem _ hq))

/-- The pause loop intercepts the first `Continue` after any number of
non-`Continue` requests, returning its kind with the snapshot cleared. -/
theorem breakpoint_loop_continue (env : DmEnv) :
    ∀ (pre : List Request) (s : Server) (acc : List Response) (kind : ContinueKind)
      (post : List Request),
      (∀ r ∈ pre, is_continue_request r = false) →
      (∀ r ∈ pre, asserts_ok r = true) →
      ∃ s' out, Server.breakpoint_loop env s (pre ++ Request.Continue kind :: post) acc =
          .ok (s', out, kind) ∧ s'.call_stacks = none := by
  intro pre
  induction pre with
  | nil =>
    intro s acc kind post _ _
    exact ⟨{ s with call_stacks := none }, acc, rfl, rfl⟩
  | cons r pre ih =>
    intro s acc kind post hnc hok
    obtain ⟨s', out, heq, _⟩ := handle_request_ok env s r (hok r (by simp))
    rw [List.cons_append,
      breakpoint_loop_cons_of_not_continue env s r _ acc (hnc r (by simp)), heq]
    exact ih s' (acc ++ out) kind post (fun q hq => hnc q (List.mem_cons_of_mem _ hq))
      (fun q hq => hok q (List.mem_cons_of_mem _ hq))

/-- C8: during a pause, any number of `Continue`-free (assertion-safe)
requests are dispatched without ending the pause; the first
`Continue{kind}` makes `handle_breakpoint` clear the snapshot and return
that kind (whatever requests follow it); and if the channel closes before
any `Continue`, it clears the snapshot and returns the default `Continue`
mode. -/
theorem spec2proof_C8 :
    (∀ (env : DmEnv) (s : Server) (reason : BreakpointReason) (pre post : List Request)
        (kind : ContinueKind),
        (∀ r ∈ pre, is_continue_request r = false) →
        (∀ r ∈ pre, asserts_ok r = true) →
        ∃ s' out, Server.handle_breakpoint env s reason
            (pre ++ Request.Continue kind :: post) = .ok (s', out, kind) ∧
          s'.call_stacks = none) ∧
    (∀ (env : DmEnv) (s : Server) (reason : BreakpointReason) (reqs : List Request),
        (∀ r ∈ reqs, is_continue_request r = false) →
        (∀ r ∈ reqs, asserts_ok r = true) →
        ∃ s' out, Server.handle_breakpoint env s reason reqs =
            .ok (s', out, ContinueKind.Continue) ∧ s'.call_stacks = none) := by
  constructor
  · intro env s reason pre post kind hnc hok
    exact breakpoint_loop_continue env pre _ _ kind post hnc hok
  · intro env s reason reqs hnc hok
    exact breakpoint_loop_no_continue env reqs _ _ hnc hok

/-- Witness for C8: a pause that sees one `Pause` request and then
`Continue{StepOver}` returns `StepOver` with the snapshot cleared. -/
theorem spec2proof_C8_witness :
    ∃ s' out, Server.handle_breakpoint env0 st_idle BreakpointReason.Breakpoint
        ([Request.Pause] ++ Request.Continue ContinueKind.StepOver :: []) =
      .ok (s', out, ContinueKind.StepOver) ∧ s'.call_stacks = none :=
  spec2proof_C8.1 env0 st_idle BreakpointReason.Breakpoint [Request.Pause] []
    ContinueKind.StepOver (by decide) (by decide)

/-! ## Snapshot lifetime lemmas -/

/-- The drain loop of `process` never changes the pause snapshot. -/
theorem process_loop_call_stacks (env : DmEnv) :
    ∀ (pending : List Request) (s : Server) (sp : Bool) (acc : List Response)
      (res : Server × List Response × Bool),
      Server.process_loop env s pending sp acc = .ok res →
      res.1.call_stacks = s.call_stacks := by
  intro pending
  induction pending with
  | nil =>
    intro s sp acc res h
    injection h with h2
    rw [← h2]
  | cons r rest ih =>
    intro s sp acc res h
    cases sp with
    | true => exact ih s true acc res h
    | false =>
      cases hh : Server.handle_request env s r with
      | error e =>
        rw [show Server.process_loop env s (r :: rest) false acc =
            (match Server.handle_request env s r with
              | .ok (s', out, b) => Server.process_loop env s' rest b (acc ++ out)
              | .error e => .error e) from rfl, hh] at h
        cases h
      | ok val =>
        obtain ⟨s', out, b⟩ := val
        rw [show Server.process_loop env s (r :: rest) false acc =
            (match Server.handle_request env s r with
              | .ok (s', out, b) => Server.process_loop env s' rest b (acc ++ out)
              | .error e => .error e) from rfl, hh] at h
        rw [ih s' b (acc ++ out) res h]
        exact handle_request_call_stacks env s r (s', out, b) hh

/-- The pause loop always clears the snapshot on success, on both of its
exit paths. -/
theorem breakpoint_loop_ok_call_stacks (env : DmEnv) :
    ∀ (reqs : List Request) (s : Server) (acc : List Response)
      (res : Server × List Response × ContinueKind),
      Server.breakpoint_loop env s reqs acc = .ok res → res.1.call_stacks = none := by
  intro reqs
  induction reqs with
  | nil =>
    intro s acc res h
    injection h with h2
    rw [← h2]
  | cons r rest ih =>
    intro s acc res h
    cases hc : is_continue_request r with
    | true =>
      obtain ⟨k, rfl⟩ : ∃ k, r = Request.Continue k := by
        cases r <;> first
          | exact ⟨_, rfl⟩
          | simp [is_continue_request] at hc
      simp only [Server.breakpoint_loop] at h
      injection h with h2
      rw [← h2]
    | false =>
      rw [breakpoint_loop_cons_of_not_continue env s r rest acc hc] at h
      cases hh : Server.handle_request env s r with
      | error e =>
        rw [hh] at h
        cases h
      | ok val =>
        obtain ⟨s', out, b⟩ := val
        rw [hh] at h
        exact ih s' (acc ++ out) res h

/-- C9: the snapshot is `some` exactly while paused — no successful
dispatch or poll changes it (so nothing outside `handle_breakpoint` ever
sets it), `listen` starts it as `none`, every successful
`handle_breakpoint` ends with it `none`, and during the pause it is the
freshly captured snapshot: a mid-pause `StackFrames` request is answered
from `capture_stacks`. -/
theorem spec2proof_C9 :
    (∀ (env : DmEnv) (s : Server) (r : Request) (res : Server × List Response × Bool),
        Server.handle_request env s r = .ok res → res.1.call_stacks = s.call_stacks) ∧
    (∀ (env : DmEnv) (s : Server) (conn : Option Unit) (pending : List Request)
        (res : Server × List Response × Bool),
        Server.process env s conn pending = .ok res →
        res.1.call_stacks = s.call_stacks) ∧
    (∀ (env : DmEnv) (s : Server) (reason : BreakpointReason) (reqs : List Request)
        (res : Server × List Response × ContinueKind),
        Server.handle_breakpoint env s reason reqs = .ok res →
        res.1.call_stacks = none) ∧
    Server.listen.call_stacks = none ∧
    (∀ (env : DmEnv) (s : Server) (reason : BreakpointReason),
        s.stream = some () → (∀ resp, env.write_ok resp = true) →
        Server.handle_breakpoint env s reason [Request.StackFrames 0 none none] =
          .ok ({ s with call_stacks := none },
            [Response.BreakpointHit reason,
              stack_frames_response env env.capture_stacks.active none none],
            ContinueKind.Continue)) := by
  refine ⟨?_, ?_, ?_, rfl, ?_⟩
  · exact handle_request_call_stacks
  · intro env s conn pending res h
    unfold Server.process at h
    cases hstr : s.stream with
    | some u =>
      rw [hstr] at h
      exact process_loop_call_stacks env pending s false [] res h
    | none =>
      rw [hstr] at h
      cases conn with
      | some u =>
        have := process_loop_call_stacks env pending { s with stream := some () } false [] res h
        exact this
      | none =>
        injection h with h2
        rw [← h2]
  · intro env s reason reqs res h
    exact breakpoint_loop_ok_call_stacks env reqs _ _ res h
  · intro env s reason hstream hw
    have hs0 : ({ s with call_stacks := some env.capture_stacks } : Server).stream =
        some () := hstream
    unfold Server.handle_breakpoint
    have hsend : Server.send_or_disconnect env
        { s with call_stacks := some env.capture_stacks } (.BreakpointHit reason) =
        ({ s with call_stacks := some env.capture_stacks },
          [Response.BreakpointHit reason]) := by
      unfold Server.send_or_disconnect
      rw [hs0]
      simp [hw]
    show Server.breakpoint_loop env
        (Server.send_or_disconnect env { s with call_stacks := some env.capture_stacks }
          (.BreakpointHit reason)).1
        [Request.StackFrames 0 none none]
        (Server.send_or_disconnect env { s with call_stacks := some env.capture_stacks }
          (.BreakpointHit reason)).2 = _
    rw [hsend]
    rw [breakpoint_loop_cons_of_not_continue env _ (Request.StackFrames 0 none none) [] _ rfl]
    rw [show Server.handle_request env { s with call_stacks := some env.capture_stacks }
        (Request.StackFrames 0 none none) =
        .ok ({ s with call_stacks := some env.capture_stacks },
          [stack_frames_response env env.capture_stacks.active none none], false)
      from by
        show ok_send env { s with call_stacks := some env.capture_stacks }
            (stack_frames_response env env.capture_stacks.active none none) false = _
        exact ok_send_write env _ _ false hs0 (hw _)]
    rfl

/-- Witness for C9: a concrete pause over the five-frame snapshot ends
with the snapshot cleared and the mid-pause `StackFrames` answered from
it. -/
theorem spec2proof_C9_witness :
    Server.handle_breakpoint env0 st_idle BreakpointReason.Pause
        [Request.StackFrames 0 none none] =
      .ok ({ st_idle with call_stacks := none },
        [Response.BreakpointHit BreakpointReason.Pause,
          stack_frames_response env0 env0.capture_stacks.active none none],
        ContinueKind.Continue) :=
  spec2proof_C9.2.2.2.2 env0 st_idle BreakpointReason.Pause rfl (fun _ => rfl)

/-! ## Framing lemmas -/

/-- `rposition` finds nothing in a zero-free buffer. -/
theorem rposition_zero_eq_none : ∀ l : List Nat, 0 ∉ l → rposition_zero l = none := by
  intro l
  induction l with
  | nil => intro _; rfl
  | cons b rest ih =>
    intro h
    simp only [List.mem_cons, not_or] at h
    simp only [rposition_zero, ih h.2]
    rw [if_neg (fun hb => h.1 hb.symm)]

/-- `rposition` finds the last zero: with a zero-free suffix, its index is
the length of the prefix. -/
theorem rposition_zero_append (sfx : List Nat) (h : 0 ∉ sfx) :
    ∀ pre : List Nat, rposition_zero (pre ++ 0 :: sfx) = some pre.length := by
  intro pre
  induction pre with
  | nil =>
    simp [rposition_zero, rposition_zero_eq_none sfx h]
  | cons b pre ih =>
    simp [rposition_zero, ih]

/-- The clearing step on a buffer whose last delimiter is followed by the
zero-free fragment `sfx` retains the delimiter and `sfx` — and nothing
before them. -/
theorem clear_finished_eq (pre sfx : List Nat) (h : 0 ∉ sfx) :
    clear_finished (pre ++ 0 :: sfx) = 0 :: sfx := by
  unfold clear_finished
  rw [rposition_zero_append sfx h pre]
  exact List.drop_left pre (0 :: sfx)

/-- C4 (amended): after a read-loop iteration whose buffer contains at
least one delimiter, the retained buffer is the last delimiter byte
followed by the bytes strictly after it; everything strictly before the
last delimiter is discarded, but the delimiter itself is retained. -/
theorem spec2proof_C4 (dec : List Nat → Option Request) (buf chunk pre sfx : List Nat)
    (hsplit : buf ++ chunk = pre ++ 0 :: sfx) (hsfx : 0 ∉ sfx) :
    (ServerThread.run_step dec buf chunk).2.2 = 0 :: sfx := by
  show clear_finished (buf ++ chunk) = 0 :: sfx
  rw [hsplit]
  exact clear_finished_eq pre sfx hsfx

/-- Witness for C4: the buffer `[1,0,2]` retains `[0,2]` — the delimiter
plus the trailing fragment. -/
theorem spec2proof_C4_witness :
    (ServerThread.run_step dec0 [] [1, 0, 2]).2.2 = 0 :: [2] :=
  spec2proof_C4 dec0 [] [1, 0, 2] [1] [2] rfl (by decide)

/-- `slice::split` on a delimiter-free segment followed by a delimiter
peels off exactly that segment. -/
theorem split_zero_append (m t : List Nat) (h : 0 ∉ m) :
    split_zero (m ++ 0 :: t) = m :: split_zero t := by
  induction m with
  | nil => simp [split_zero]
  | cons b m ih =>
    simp only [List.mem_cons, not_or] at h
    simp only [List.cons_append, split_zero, List.append_eq]
    rw [if_neg (fun hb => h.1 hb.symm), ih h.2]

/-- Concatenating a batch of messages in zero-terminated encoding. -/
theorem encode_chunk_cons (m : List Nat) (msgs : List (List Nat)) :
    encode_chunk (m :: msgs) = m ++ 0 :: encode_chunk msgs := by
  simp [encode_chunk]

/-- Splitting a chunk of zero-terminated, zero-free messages yields
exactly those messages plus one trailing empty fragment. -/
theorem split_zero_encode : ∀ msgs : List (List Nat), (∀ m ∈ msgs, 0 ∉ m) →
    split_zero (encode_chunk msgs) = msgs ++ [[]] := by
  intro msgs
  induction msgs with
  | nil => intro _; rfl
  | cons m msgs ih =>
    intro h
    rw [encode_chunk_cons, split_zero_append m _ (h m (by simp)),
      ih (fun q hq => h q (List.mem_cons_of_mem _ hq))]
    rfl

/-- A non-empty batch's encoding ends with the delimiter. -/
theorem encode_chunk_concat : ∀ msgs : List (List Nat), msgs ≠ [] →
    ∃ Y, encode_chunk msgs = Y ++ [0] := by
  intro msgs
  induction msgs with
  | nil => intro h; exact absurd rfl h
  | cons m msgs ih =>
    intro _
    cases msgs with
    | nil => exact ⟨m, by simp [encode_chunk]⟩
    | cons m2 rest =>
      obtain ⟨Y, hY⟩ := ih (by simp)
      refine ⟨m ++ 0 :: Y, ?_⟩
      rw [encode_chunk_cons, hY]
      simp

/-- The fragment loop forwards each of a run of non-empty decodable
fragments, in order, and survives the trailing empty fragment. -/
theorem forward_fragments_msgs (dec : List Nat → Option Request) :
    ∀ msgs : List (List Nat), (∀ m ∈ msgs, m ≠ [] ∧ (dec m).isSome = true) →
      forward_fragments dec (msgs ++ [[]]) = (msgs.filterMap dec, false) := by
  intro msgs
  induction msgs with
  | nil => intro _; rfl
  | cons m msgs ih =>
    intro h
    obtain ⟨hm, hd⟩ := h m (by simp)
    obtain ⟨r, hr⟩ := Option.isSome_iff_exists.mp hd
    have hem : m.isEmpty = false := by
      cases m with
      | nil => exact absurd rfl hm
      | cons a as => rfl
    simp only [List.cons_append, forward_fragments, hem, Bool.false_eq_true, if_false, hr,
      List.append_eq]
    rw [ih (fun q hq => h q (List.mem_cons_of_mem _ hq)), List.filterMap_cons, hr]

/-- One aligned read-loop iteration: starting from a clean buffer (empty
or a lone retained delimiter), a chunk of zero-terminated, zero-free,
decodable messages forwards exactly those messages and retains `[0]`. -/
theorem run_step_aligned (dec : List Nat → Option Request) (buf : List Nat)
    (msgs : List (List Nat)) (hbuf : buf = [] ∨ buf = [0]) (hne : msgs ≠ [])
    (hm : ∀ m ∈ msgs, m ≠ [] ∧ 0 ∉ m ∧ (dec m).isSome = true) :
    ServerThread.run_step dec buf (encode_chunk msgs) =
      (msgs.filterMap dec, false, [0]) := by
  obtain ⟨Y, hY⟩ := encode_chunk_concat msgs hne
  have hsplit : split_zero (encode_chunk msgs) = msgs ++ [[]] :=
    split_zero_encode msgs (fun m hm2 => (hm m hm2).2.1)
  have hfwd : forward_fragments dec (msgs ++ [[]]) = (msgs.filterMap dec, false) :=
    forward_fragments_msgs dec msgs (fun m hm2 => ⟨(hm m hm2).1, (hm m hm2).2.2⟩)
  rcases hbuf with rfl | rfl
  · show ((forward_fragments dec (split_zero (encode_chunk msgs))).1,
        (forward_fragments dec (split_zero (encode_chunk msgs))).2,
        clear_finished (encode_chunk msgs)) = (msgs.filterMap dec, false, [0])
    rw [hsplit, hfwd, hY, clear_finished_eq Y [] (by simp)]
  · show ((forward_fragments dec (split_zero (0 :: encode_chunk msgs))).1,
        (forward_fragments dec (split_zero (0 :: encode_chunk msgs))).2,
        clear_finished (0 :: encode_chunk msgs)) = (msgs.filterMap dec, false, [0])
    have hz : split_zero (0 :: encode_chunk msgs) = [] :: (msgs ++ [[]]) := by
      simp [split_zero, hsplit]
    have hcl : clear_finished (0 :: encode_chunk msgs) = [0] := by
      rw [hY, show (0 :: (Y ++ [0]) : List Nat) = (0 :: Y) ++ 0 :: [] from by simp]
      exact clear_finished_eq (0 :: Y) [] (by simp)
    rw [hz, show forward_fragments dec ([] :: (msgs ++ [[]])) =
        forward_fragments dec (msgs ++ [[]]) from rfl, hfwd, hcl]

/-- The read loop over aligned reads forwards every message of every
batch, in order, with no loss or duplication. -/
theorem run_loop_aligned (dec : List Nat → Option Request) :
    ∀ (css : List (List (List Nat))) (buf : List Nat) (acc : List Request),
      (buf = [] ∨ buf = [0]) →
      (∀ ms ∈ css, ms ≠ []) →
      (∀ ms ∈ css, ∀ m ∈ ms, m ≠ [] ∧ 0 ∉ m ∧ (dec m).isSome = true) →
      ServerThread.run_loop dec buf acc (css.map encode_chunk) =
        acc ++ css.flatten.filterMap dec := by
  intro css
  induction css with
  | nil => intro buf acc _ _ _; simp [ServerThread.run_loop]
  | cons ms css ih =>
    intro buf acc hbuf hne hmsg
    have hms_ne : ms ≠ [] := hne ms (by simp)
    have hstep := run_step_aligned dec buf ms hbuf hms_ne (hmsg ms (by simp))
    obtain ⟨Y, hY⟩ := encode_chunk_concat ms hms_ne
    have hchunk : (encode_chunk ms).isEmpty = false := by
      rw [hY]
      cases Y <;> rfl
    simp only [List.map_cons, ServerThread.run_loop, hchunk, Bool.false_eq_true, if_false]
    rw [hstep]
    show ServerThread.run_loop dec [0] (acc ++ ms.filterMap dec) (css.map encode_chunk) = _
    rw [ih [0] (acc ++ ms.filterMap dec) (Or.inr rfl)
      (fun q hq => hne q (List.mem_cons_of_mem _ hq))
      (fun q hq => hmsg q (List.mem_cons_of_mem _ hq))]
    simp [List.filterMap_append, List.append_assoc]

/-- C3 (amended): when every read ends exactly on a message boundary —
each read is the zero-terminated encoding of a non-empty batch of
non-empty, delimiter-free, decodable messages — the ingestor forwards
exactly one request per message, in the original order, with no loss and
no duplication. -/
theorem spec2proof_C3 (dec : List Nat → Option Request)
    (batches : List (List (List Nat)))
    (hne : ∀ ms ∈ batches, ms ≠ [])
    (hmsg : ∀ ms ∈ batches, ∀ m ∈ ms, m ≠ [] ∧ 0 ∉ m ∧ (dec m).isSome = true) :
    ServerThread.run dec (batches.map encode_chunk) =
      batches.flatten.filterMap dec := by
  have h := run_loop_aligned dec batches [] [] (Or.inl rfl) hne hmsg
  simpa [ServerThread.run] using h

/-- Witness for C3: two aligned reads, one message each, are forwarded
exactly once each and in order. -/
theorem spec2proof_C3_witness :
    ServerThread.run dec0 ([[[1]], [[2]]].map encode_chunk) =
      ([[[1]], [[2]]] : List (List (List Nat))).flatten.filterMap dec0 :=
  spec2proof_C3 dec0 [[[1]], [[2]]] (by decide) (by decide)
